import Mathlib

/-!
Verification of the pyflagser data-marshaling layer (repository
`giotto-ai/flagser-pybind`): a shallow embedding of the flag-file codec
in `pyflagser/flagio.py` (`loadflag`, `saveflag`) and of the
parameter-handling layer of `pyflagser/flagser.py` (`flagser_static`,
`flagser_persistence`).

Modelling conventions:
- Python floats are modelled as exact rationals `ℚ`; the `%.18e` format
  used by `np.savetxt` round-trips doubles exactly, so formatting and
  parsing are modelled as the identity on values.
- A scipy sparse matrix is modelled by `SpMat`: its size, its dtype and
  the list of explicitly stored `(row, col, value)` entries in the
  structure's enumeration order.  Assigning an entry (`__setitem__`)
  updates the stored value when the key is already present and stores a
  new entry otherwise; explicitly assigned zeros are stored (scipy's
  csr `__setitem__` and `setdiag` do not filter zeros).
- `scipy.sparse.find(A)` converts to COO form, canonicalises it with
  `sum_duplicates` (which sorts entries in row-major order) and then
  removes explicit zeros with the mask `data != 0`.  It is modelled by
  `spFind`: a row-major insertion sort followed by a nonzero filter.
- A line of a text file is modelled at token level as `List (Option ℚ)`:
  `some q` is a token that `float` parses to the value `q`, and `none`
  is a token on which `float` raises `ValueError`.  A missing line read
  by `readline` at end of file behaves as the empty string, whose
  `split(' ')` is `['']`, i.e. the single non-numeric token `[none]`.
- Python exceptions become an explicit error type; an exception aborts
  the remaining iteration, which is modelled by short-circuiting.
-/

namespace Pyflagser

/-- The numpy dtype of a matrix, as far as `pyflagser` inspects it:
an integer dtype (with its `np.iinfo(...).max`), a floating dtype, or a
dtype that is neither (`bool` is the concrete such case; `saveflag`
additionally tests `dtype == bool`). -/
inductive Dtype where
  | intT (maxInt : ℤ)
  | floatT
  | boolT
deriving DecidableEq

/-- One explicitly stored entry of a sparse matrix: row, column, value. -/
abbrev Entry := Nat × Nat × ℚ

/-- Does entry `e` live at key `(a, b)`? -/
def keyIs (a b : Nat) (e : Entry) : Bool := e.1 == a && e.2.1 == b

/-- The stored value at key `(a, b)` of a stored-entry list, if present. -/
def lookupE (l : List Entry) (a b : Nat) : Option ℚ :=
  (l.find? (keyIs a b)).map (fun e => e.2.2)

/-- A scipy sparse matrix: size `n`×`n`, dtype, and the explicitly
stored entries in the structure's enumeration order. -/
structure SpMat where
  n : Nat
  dtype : Dtype
  entries : List Entry
deriving DecidableEq

/-- Is the entry `(a, b)` explicitly stored? -/
def SpMat.presentB (M : SpMat) (a b : Nat) : Bool := (lookupE M.entries a b).isSome

/-- The value at `(a, b)`: the stored value, or `0` when unstored (the
sparse default). -/
def SpMat.val (M : SpMat) (a b : Nat) : ℚ := (lookupE M.entries a b).getD 0

/-- `__setitem__` on the stored-entry list: update the stored value in
place when key `(a, b)` is present, otherwise store a new entry. -/
def setEntryL (l : List Entry) (a b : Nat) (v : ℚ) : List Entry :=
  if l.any (keyIs a b) then l.map (fun e => if keyIs a b e then (a, b, v) else e)
  else l ++ [(a, b, v)]

/-- `flag_matrix[a, b] = v` on a sparse matrix. -/
def SpMat.setEntry (M : SpMat) (a b : Nat) (v : ℚ) : SpMat :=
  { M with entries := setEntryL M.entries a b v }

/-- The stored entries written by `setdiag(vertices)` on a fresh matrix,
starting at row `i`: one stored entry per diagonal position, zeros
included. -/
def diagEntries : Nat → List ℚ → List Entry
  | _, [] => []
  | i, v :: vs => (i, i, v) :: diagEntries (i + 1) vs

/-- One parsed text line, as the list of its space-separated tokens:
`some q` parses to the float `q`, `none` makes `float` raise. -/
abbrev Line := List (Option ℚ)

/-- The Python exceptions `loadflag` can raise: `StopIteration` from
`next(f)` on an empty file, `ValueError` from `float(...)`,
`IndexError` from `edge[k]` on a short token list, and the
`IndexError` scipy raises for an index outside `[-n, n)`. -/
inductive LoadError where
  | stopIteration
  | valueError
  | indexError
  | indexOutOfRange
deriving DecidableEq

/-- `float(edge[k])`: `IndexError` when the token list is shorter than
`k + 1`, `ValueError` when the token is not numeric. -/
def getTok (toks : Line) (k : Nat) : Except LoadError ℚ :=
  match toks[k]? with
  | none => .error .indexError
  | some none => .error .valueError
  | some (some q) => .ok q

/-- Python `int(...)` on a float value: truncation toward zero. -/
def ratTrunc (q : ℚ) : ℤ :=
  if 0 ≤ q.num then ((q.num.toNat / q.den : Nat) : ℤ)
  else -(((-q.num).toNat / q.den : Nat) : ℤ)

/-- scipy index validation for `__setitem__`: an index outside
`[-n, n)` raises `IndexError`; a negative index in `[-n, -1]` wraps
around to `n + i` (Python negative indexing). -/
def checkIdx (i : ℤ) (n : Nat) : Except LoadError Nat :=
  if i < -(n : ℤ) ∨ (n : ℤ) ≤ i then .error .indexOutOfRange
  else if i < 0 then .ok (i + n).toNat
  else .ok i.toNat

/-- The wrapped (Python-style) index for `i ∈ [-n, n)`. -/
def wrapIdx (i : ℤ) (n : Nat) : Nat :=
  if i < 0 then (i + n).toNat else i.toNat

/-- Processing of one edge line:
`flag_matrix[int(float(edge[0])), int(float(edge[1]))] = float(edge[2])`.
Python evaluates the right-hand side `float(edge[2])` first, then the
subscript expressions, then scipy validates the row index and the
column index in that order. -/
def procEdge (M : SpMat) (toks : Line) : Except LoadError SpMat := do
  let w ← getTok toks 2
  let r ← getTok toks 0
  let c ← getTok toks 1
  let a ← checkIdx (ratTrunc r) M.n
  let b ← checkIdx (ratTrunc c) M.n
  pure (M.setEntry a b w)

/-- The loop over the edge lines; a raised exception aborts it. -/
def procAll (M : SpMat) : List Line → Except LoadError SpMat
  | [] => .ok M
  | l :: ls =>
    match procEdge M l with
    | .ok M' => procAll M' ls
    | .error e => .error e

/-- `list(map(float, line.split(' ')))`: parses tokens left to right,
raising `ValueError` at the first non-numeric token. -/
def parseFloats : Line → Except LoadError (List ℚ)
  | [] => .ok []
  | t :: ts =>
    match t with
    | none => .error .valueError
    | some q => (parseFloats ts).map (fun l => q :: l)

/-- `loadflag` (`pyflagser/flagio.py`, lines 39-55), at its default
arguments (`fmt='csr'`, for which the final `asformat` is the identity,
and `dtype=None`, i.e. float64):
`next(f)` skips the first line (raising `StopIteration` on an empty
file); the second line is parsed as the vertex weights (a missing
second line reads as the empty string); an `n`×`n` csr matrix is
created and its diagonal set to the vertex weights; `f.readlines()[1:]`
then skips the third line and assigns one stored entry per remaining
line. -/
def loadflag (file : List Line) : Except LoadError SpMat :=
  match file with
  | [] => .error .stopIteration
  | _ :: rest => do
    let vertices ← parseFloats (rest.headD [none])
    let M0 : SpMat := ⟨vertices.length, .floatT, diagEntries 0 vertices⟩
    procAll M0 (rest.tail.drop 1)

/-- Row-major order on stored entries: the order in which
`coo_matrix.sum_duplicates` (called by `scipy.sparse.find`) sorts
them. -/
def keyLe (d e : Entry) : Bool :=
  decide (d.1 < e.1) || (d.1 == e.1 && decide (d.2.1 ≤ e.2.1))

/-- Insertion step of the row-major sort. -/
def insEntry (e : Entry) : List Entry → List Entry
  | [] => [e]
  | d :: l => if keyLe e d then e :: d :: l else d :: insEntry e l

/-- Row-major sort of the stored entries. -/
def canonSort (l : List Entry) : List Entry := l.foldr insEntry []

/-- `scipy.sparse.find(flag_matrix)`: the stored entries in canonical
row-major order with explicit zeros removed (the mask `data != 0`).
Note that it keeps nonzero diagonal entries and drops stored zeros. -/
def spFind (M : SpMat) : List Entry :=
  (canonSort M.entries).filter (fun e => decide (e.2.2 ≠ 0))

/-- The text file written by `saveflag`, value-level: the vertex-weight
line (under the `dim 0` header) and the edge lines (under the `dim 1`
header), each edge line as its list of numeric tokens. -/
structure FlagFile where
  vertLine : List ℚ
  edgeLines : List (List ℚ)
deriving DecidableEq

/-- `flag_matrix.diagonal()`: the `n` diagonal values, `0` at unstored
diagonal positions. -/
def SpMat.diag (M : SpMat) : List ℚ :=
  (List.range M.n).map (fun i => M.val i i)

/-- `saveflag` (`pyflagser/flagio.py`, lines 79-88): writes the
diagonal as the vertex-weight line, then one line per element of
`sp.find(flag_matrix)` — two integer tokens (`'%i %i'`) when the dtype
is `bool`, otherwise row, column and full-precision weight
(`'%i %i %.18e'`). -/
def saveflag (M : SpMat) : FlagFile :=
  { vertLine := M.diag
  , edgeLines :=
      if M.dtype = .boolT then
        (spFind M).map (fun e => [(e.1 : ℚ), (e.2.1 : ℚ)])
      else
        (spFind M).map (fun e => [(e.1 : ℚ), (e.2.1 : ℚ), e.2.2]) }

/-- The written file as the token lines `loadflag` would read back:
the literal header `dim 0` (tokens `dim` and `0`), the vertex-weight
line, the literal header `dim 1`, then the edge lines. -/
def fileLines (F : FlagFile) : List Line :=
  [none, some 0] :: (F.vertLine.map some) ::
    ([none, some 1] :: F.edgeLines.map (fun l => l.map some))

/-- The token line of one well-formed edge triple. -/
def renderTriple (e : Entry) : Line :=
  [some (e.1 : ℚ), some (e.2.1 : ℚ), some e.2.2]

/-! ### The parameter-handling layer of `pyflagser/flagser.py`

`compute_homology` and `implemented_filtrations` come from the
`flagser_pybind` C++ extension and `_extract_static_weights` /
`_extract_persistence_weights` from `pyflagser/_utils.py`; none of
these is part of the Python sources under verification.  The engine
and the extractors are therefore taken as oracle arguments, and the
filtration registry is modelled from the spec. -/

/-- A float value as it appears in engine diagrams: NaN, the two
infinities, or a finite value. -/
inductive EV where
  | nan
  | pinf
  | ninf
  | num (q : ℚ)
deriving DecidableEq

/-- The `max_dimension` argument: `np.inf` or a concrete integer bound
(`max_dimension == np.inf` is `False` for every integer). -/
inductive MaxDim where
  | inf
  | val (k : ℤ)
deriving DecidableEq

/-- The one exception the parameter layer raises:
`ValueError("Filtration not recongnized. Available filtrations are ",
implemented_filtrations)` — a constant message string and the registry
list as its two arguments. -/
inductive PyError where
  | valueError (msg : String) (listed : List String)
deriving DecidableEq

/-- The literal message string of the `ValueError` (sic, including the
source's typo); note that it does not mention the rejected name. -/
def errMsg : String := "Filtration not recongnized. Available filtrations are "

/-- Modelled from the spec: `implemented_filtrations` is exported by
the `flagser_pybind` C++ extension, which is absent from the Python
sources; spec section 4.3 fixes it as this closed registry of eleven
names. -/
def implemented_filtrations : List String :=
  ["dimension", "zero", "max", "max3", "max_plus_one", "product", "sum",
   "pmean", "pmoment", "remove_edges", "vertex_degree"]

/-- The argument tuple passed to `compute_homology`. -/
structure EngineCall where
  vertices : List ℚ
  edges : List (Nat × Nat × ℚ)
  minDim : ℤ
  maxDim : ℤ
  directed : Bool
  coeff : ℤ
  approx : ℤ
  filt : String
deriving DecidableEq

/-- What `compute_homology` returns (through `homology[0]`):
per-dimension persistence diagrams, cell counts, Betti numbers and the
Euler characteristic. -/
structure EngineResult where
  diagrams : List (List (EV × EV))
  cellCount : List ℤ
  betti : List ℤ
  euler : ℤ
deriving DecidableEq

/-- The `out` dictionary both public functions return. -/
structure FlagserOut where
  dgms : List (List (EV × EV))
  cellCount : List ℤ
  betti : List ℤ
  euler : ℤ
deriving DecidableEq

/-- `_max_dimension`: `-1` when `max_dimension == np.inf`, otherwise
the bound unchanged (`flagser.py` lines 90-93 and 225-228). -/
def normMaxDim : MaxDim → ℤ
  | .inf => -1
  | .val k => k

/-- `_approximation`: `-1` when `approximation is None`, otherwise the
budget unchanged, negative budgets included (`flagser.py` lines 95-98
and 230-233). -/
def normApprox : Option ℤ → ℤ
  | none => -1
  | some b => b

/-- Default resolution of `_max_edge_length` (`flagser.py` lines
214-223): when the argument is `None`, an integer dtype resolves to
`np.iinfo(dtype).max`, a floating dtype to `np.inf`, and any other
dtype leaves `_max_edge_length = None` (no exception is raised);
an explicit argument passes through unchanged. -/
def resolveMEL : Option EV → Dtype → Option EV
  | none, .intT m => some (.num (m : ℚ))
  | none, .floatT => some .pinf
  | none, .boolT => none
  | some v, _ => some v

/-- The parameter-handling prefix of `flagser_persistence` (lines
213-237), everything before weight extraction: resolve
`_max_edge_length`, map `_max_dimension` and `_approximation` to the
engine sentinels, then validate the filtration name. -/
def flagser_persistence_pre (mel : Option EV) (dt : Dtype) (maxDim : MaxDim)
    (approx : Option ℤ) (filt : String) : Except PyError (Option EV × ℤ × ℤ) :=
  let r := resolveMEL mel dt
  let md := normMaxDim maxDim
  let ap := normApprox approx
  if filt ∈ implemented_filtrations then .ok (r, md, ap)
  else .error (.valueError errMsg implemented_filtrations)

/-- The largest finite float64, `2^1024 - 2^971`, exactly. -/
def float64Max : ℚ := ((2 ^ 1024 - 2 ^ 971 : ℤ) : ℚ)

/-- `np.nan_to_num(x, posinf=p)` on one float64 value: NaN becomes
`0.0`, positive infinity becomes `p` (or the largest finite float64
when `p` is `None`), negative infinity becomes the default lowest
finite float64. -/
def nanSub (mel : Option EV) : EV → EV
  | .nan => .num 0
  | .pinf => match mel with | some v => v | none => .num float64Max
  | .ninf => .num (-float64Max)
  | .num q => .num q

/-- The parameter-handling prefix of `flagser_static` (lines 89-102):
map `_max_dimension` and `_approximation` to the engine sentinels, then
validate the filtration name, then build the `compute_homology`
argument tuple from the extracted weights. -/
def flagser_static_call (extract : SpMat → List ℚ × List (Nat × Nat × ℚ))
    (M : SpMat) (minDim : ℤ) (maxDim : MaxDim) (directed : Bool)
    (filt : String) (coeff : ℤ) (approx : Option ℤ) : Except PyError EngineCall :=
  let md := normMaxDim maxDim
  let ap := normApprox approx
  if filt ∈ implemented_filtrations then
    let ve := extract M
    .ok ⟨ve.1, ve.2, minDim, md, directed, coeff, ap, filt⟩
  else .error (.valueError errMsg implemented_filtrations)

/-- `flagser_static` (`flagser.py`, lines 9-119), with
`_extract_static_weights` and `compute_homology` as oracles: normalize
the parameters, extract, run the engine, and copy its output into the
result dictionary — the diagrams pass through `np.asarray` unchanged,
with no value substitution. -/
def flagser_static (extract : SpMat → List ℚ × List (Nat × Nat × ℚ))
    (engine : EngineCall → EngineResult) (M : SpMat) (minDim : ℤ)
    (maxDim : MaxDim) (directed : Bool) (filt : String) (coeff : ℤ)
    (approx : Option ℤ) : Except PyError FlagserOut :=
  (flagser_static_call extract M minDim maxDim directed filt coeff approx).map
    (fun c =>
      let h := engine c
      ⟨h.diagrams, h.cellCount, h.betti, h.euler⟩)

/-- `flagser_persistence` (`flagser.py`, lines 122-256), with
`_extract_persistence_weights` and `compute_homology` as oracles: after
the parameter prefix, extract with the resolved `_max_edge_length`, run
the engine, and post-process each diagram with
`np.nan_to_num(..., posinf=_max_edge_length)`. -/
def flagser_persistence (extract : SpMat → Option EV → List ℚ × List (Nat × Nat × ℚ))
    (engine : EngineCall → EngineResult) (M : SpMat) (mel : Option EV)
    (minDim : ℤ) (maxDim : MaxDim) (directed : Bool) (filt : String)
    (coeff : ℤ) (approx : Option ℤ) : Except PyError FlagserOut :=
  (flagser_persistence_pre mel M.dtype maxDim approx filt).map
    (fun p =>
      let ve := extract M p.1
      let h := engine ⟨ve.1, ve.2, minDim, p.2.1, directed, coeff, p.2.2, filt⟩
      ⟨h.diagrams.map (fun d => d.map (fun pr => (nanSub p.1 pr.1, nanSub p.1 pr.2))),
       h.cellCount, h.betti, h.euler⟩)

/-- Substring test on character lists (used to state that an error
message does or does not mention a given name). -/
def listHasPre : List Char → List Char → Bool
  | [], _ => true
  | _ :: _, [] => false
  | a :: p, b :: l => a == b && listHasPre p l

/-- Does `p` occur as a contiguous substring of `l`? -/
def listHasSub (p : List Char) : List Char → Bool
  | [] => p.isEmpty
  | b :: l => listHasPre p (b :: l) || listHasSub p l

/-- The last value assigned to key `(a, b)` by a list of edge triples,
if any. -/
def lastAssigned (es : List Entry) (a b : Nat) : Option ℚ :=
  (es.reverse.find? (keyIs a b)).map (fun e => e.2.2)

/-- `setEntry` folded over a list of edge triples. -/
def applyEdges (M : SpMat) (es : List Entry) : SpMat :=
  es.foldl (fun A e => A.setEntry e.1 e.2.1 e.2.2) M

/-- Small fixed matrices used as concrete inputs in the theorems. -/
def mat1x1 : SpMat := ⟨1, .floatT, [(0, 0, 1)]⟩

/-- A 1×1 boolean-dtype matrix (a dtype that is neither integer nor
floating). -/
def matBool : SpMat := ⟨1, .boolT, [(0, 0, 1)]⟩

/-- A trivial static-extraction oracle for concrete instantiations. -/
def cExtractS : SpMat → List ℚ × List (Nat × Nat × ℚ) := fun _ => ([], [])

/-- A trivial persistence-extraction oracle for concrete
instantiations. -/
def cExtractP : SpMat → Option EV → List ℚ × List (Nat × Nat × ℚ) := fun _ _ => ([], [])

/-- A trivial engine oracle for concrete instantiations. -/
def cEngine : EngineCall → EngineResult := fun _ => ⟨[], [], [], 0⟩


/-- A 2×2 sparse float matrix with both vertex weights stored as `1`
and an explicitly assigned zero-weight edge at `(0, 1)`. -/
def matZero01 : SpMat := ⟨2, .floatT, [(0, 0, 1), (1, 1, 1), (0, 1, 0)]⟩

/-- A 2×2 sparse float matrix with nonzero vertex weights `3`, `4`, an
explicitly assigned zero-weight edge at `(0, 1)` and a weight-`5` edge
at `(1, 0)`. -/
def matC3 : SpMat := ⟨2, .floatT, [(0, 0, 3), (0, 1, 0), (1, 0, 5), (1, 1, 4)]⟩

/-- A 2×2 sparse float matrix whose structure tracks its two stored
edges in the order `(1,0)` then `(0,1)` — not row-major order. -/
def matC8 : SpMat := ⟨2, .floatT, [(1, 0, 5), (0, 1, 7)]⟩

/-- A concrete engine result with one diagram holding a pair that dies
at positive infinity and a pair born at NaN. -/
def engRes9 : EngineResult := ⟨[[(.num 1, .pinf), (.nan, .num 2)]], [1], [1], 0⟩


theorem keyIs_self (a b : Nat) (v : ℚ) : keyIs a b (a, b, v) = true := by
  simp [keyIs]

theorem keyIs_eq_true_iff (a b : Nat) (e : Entry) :
    keyIs a b e = true ↔ e.1 = a ∧ e.2.1 = b := by
  simp [keyIs]

theorem lookupE_nil (a b : Nat) : lookupE [] a b = none := rfl

theorem lookupE_cons (e : Entry) (l : List Entry) (a b : Nat) :
    lookupE (e :: l) a b
      = if keyIs a b e then some e.2.2 else lookupE l a b := by
  by_cases h : keyIs a b e
  · simp [lookupE, List.find?, h]
  · simp only [Bool.not_eq_true] at h
    simp [lookupE, List.find?, h]

theorem lookupE_append (l₁ l₂ : List Entry) (a b : Nat) :
    lookupE (l₁ ++ l₂) a b = (lookupE l₁ a b).or (lookupE l₂ a b) := by
  simp only [lookupE, List.find?_append]
  cases List.find? (keyIs a b) l₁ <;> simp [Option.or]

theorem lookupE_map_update_ne (l : List Entry) (a b : Nat) (v : ℚ) (x y : Nat)
    (h : ¬(x = a ∧ y = b)) :
    lookupE (l.map (fun e => if keyIs a b e then (a, b, v) else e)) x y
      = lookupE l x y := by
  induction l with
  | nil => rfl
  | cons d t ih =>
    by_cases hd : keyIs a b d
    · have hd' : d.1 = a ∧ d.2.1 = b := (keyIs_eq_true_iff a b d).1 hd
      have h1 : keyIs x y (a, b, v) = false := by
        simp [keyIs]
        omega
      have h2 : keyIs x y d = false := by
        simp [keyIs]
        omega
      simp [List.map, hd, lookupE_cons, h1, h2, ih]
    · simp only [Bool.not_eq_true] at hd
      simp only [List.map, hd, if_neg, Bool.false_eq_true, ite_false]
      rw [lookupE_cons, lookupE_cons, ih]

theorem lookupE_map_update_hit (l : List Entry) (a b : Nat) (v : ℚ)
    (h : l.any (keyIs a b) = true) :
    lookupE (l.map (fun e => if keyIs a b e then (a, b, v) else e)) a b
      = some v := by
  induction l with
  | nil => simp at h
  | cons d t ih =>
    by_cases hd : keyIs a b d
    · simp [List.map, hd, lookupE_cons, keyIs_self]
    · simp only [Bool.not_eq_true] at hd
      have ht : t.any (keyIs a b) = true := by
        simp only [List.any_cons, hd, Bool.false_or] at h
        exact h
      simp only [List.map, hd, Bool.false_eq_true, ite_false]
      rw [lookupE_cons, ih ht]
      simp [hd]

theorem lookupE_setEntryL (l : List Entry) (a b : Nat) (v : ℚ) (x y : Nat) :
    lookupE (setEntryL l a b v) x y
      = if x = a ∧ y = b then some v else lookupE l x y := by
  by_cases hxy : x = a ∧ y = b
  · obtain ⟨hx, hy⟩ := hxy
    subst hx; subst hy
    by_cases h : l.any (keyIs x y) = true
    · simp [setEntryL, h, lookupE_map_update_hit]
    · simp only [Bool.not_eq_true] at h
      have hnone : lookupE l x y = none := by
        simp only [lookupE]
        rw [List.find?_eq_none.2]
        · rfl
        · intro e he
          intro hcon
          have : l.any (keyIs x y) = true := List.any_eq_true.2 ⟨e, he, hcon⟩
          rw [h] at this
          exact Bool.false_ne_true this
      simp [setEntryL, h, lookupE_append, hnone, lookupE_cons, keyIs_self, Option.none_or]
  · by_cases h : l.any (keyIs a b) = true
    · simp [setEntryL, h, lookupE_map_update_ne l a b v x y hxy, hxy]
    · simp only [Bool.not_eq_true] at h
      have hone : lookupE [(a, b, v)] x y = none := by
        rw [lookupE_cons]
        have hk : keyIs x y (a, b, v) = false := by
          simp [keyIs]; omega
        simp [hk, lookupE_nil]
      simp [setEntryL, h, lookupE_append, hone, Option.or_none, hxy]


theorem bind_ok_eq {ε α β : Type} (a : α) (f : α → Except ε β) :
    (Except.ok a >>= f : Except ε β) = f a := rfl

theorem bind_err_eq {ε α β : Type} (e : ε) (f : α → Except ε β) :
    ((Except.error e : Except ε α) >>= f : Except ε β) = Except.error e := rfl

theorem map_ok_eq {ε α β : Type} (a : α) (f : α → β) :
    (f <$> (Except.ok a : Except ε α)) = Except.ok (f a) := rfl

theorem map_err_eq {ε α β : Type} (e : ε) (f : α → β) :
    (f <$> (Except.error e : Except ε α)) = Except.error e := rfl

theorem pure_ok_eq {ε α : Type} (a : α) : (pure a : Except ε α) = Except.ok a := rfl

theorem setEntry_n (M : SpMat) (a b : Nat) (v : ℚ) : (M.setEntry a b v).n = M.n := rfl

theorem applyEdges_nil (M : SpMat) : applyEdges M [] = M := rfl

theorem applyEdges_cons (M : SpMat) (e : Entry) (t : List Entry) :
    applyEdges M (e :: t) = applyEdges (M.setEntry e.1 e.2.1 e.2.2) t := rfl

theorem applyEdges_n (M : SpMat) (es : List Entry) : (applyEdges M es).n = M.n := by
  induction es generalizing M with
  | nil => rfl
  | cons e t ih => rw [applyEdges_cons, ih, setEntry_n]

theorem lastAssigned_nil (a b : Nat) : lastAssigned [] a b = none := rfl

theorem lastAssigned_cons (e : Entry) (t : List Entry) (a b : Nat) :
    lastAssigned (e :: t) a b
      = (lastAssigned t a b).or (if keyIs a b e then some e.2.2 else none) := by
  simp only [lastAssigned, List.reverse_cons, List.find?_append]
  cases h : List.find? (keyIs a b) t.reverse with
  | none =>
    simp only [Option.none_or, Option.map_none]
    by_cases hk : keyIs a b e
    · simp [List.find?, hk, Option.or]
    · simp only [Bool.not_eq_true] at hk
      simp [List.find?, hk, Option.or]
  | some d =>
    simp [Option.or]

theorem lookupE_applyEdges (es : List Entry) (M : SpMat) (x y : Nat) :
    lookupE (applyEdges M es).entries x y
      = (lastAssigned es x y).or (lookupE M.entries x y) := by
  induction es generalizing M with
  | nil => simp [applyEdges_nil, lastAssigned_nil, Option.none_or]
  | cons e t ih =>
    rw [applyEdges_cons, ih, lastAssigned_cons]
    show (lastAssigned t x y).or (lookupE (setEntryL M.entries e.1 e.2.1 e.2.2) x y) = _
    rw [lookupE_setEntryL]
    cases h : lastAssigned t x y with
    | some w => simp [Option.or]
    | none =>
      simp only [Option.none_or]
      by_cases hk : keyIs x y e
      · obtain ⟨he1, he2⟩ := (keyIs_eq_true_iff x y e).1 hk
        subst he1
        subst he2
        simp [hk, Option.or]
      · simp only [Bool.not_eq_true] at hk
        have hne : ¬(x = e.1 ∧ y = e.2.1) := by
          intro hcon
          have hkt : keyIs x y e = true :=
            (keyIs_eq_true_iff x y e).2 ⟨hcon.1.symm, hcon.2.symm⟩
          rw [hk] at hkt
          exact Bool.false_ne_true hkt
        simp [hk, hne, Option.or]

theorem lookupE_diagEntries_ne (vs : List ℚ) (i x y : Nat) (h : x ≠ y) :
    lookupE (diagEntries i vs) x y = none := by
  induction vs generalizing i with
  | nil => rfl
  | cons v t ih =>
    rw [diagEntries, lookupE_cons]
    have hk : keyIs x y (i, i, v) = false := by
      simp [keyIs]; omega
    simp [hk, ih]

theorem lookupE_diagEntries_lt (vs : List ℚ) (i x : Nat) (h : x < i) :
    lookupE (diagEntries i vs) x x = none := by
  induction vs generalizing i with
  | nil => rfl
  | cons v t ih =>
    rw [diagEntries, lookupE_cons]
    have hk : keyIs x x (i, i, v) = false := by
      simp [keyIs]; omega
    simp only [hk, Bool.false_eq_true, ite_false]
    exact ih (i + 1) (by omega)

theorem lookupE_diagEntries_get (vs : List ℚ) (i j : Nat) (h : j < vs.length) :
    lookupE (diagEntries i vs) (i + j) (i + j) = vs[j]? := by
  induction vs generalizing i j with
  | nil => simp at h
  | cons v t ih =>
    rw [diagEntries, lookupE_cons]
    cases j with
    | zero =>
      simp only [Nat.add_zero]
      have hk : keyIs i i (i, i, v) = true := keyIs_self i i v
      simp [hk]
    | succ j' =>
      have hk : keyIs (i + (j' + 1)) (i + (j' + 1)) (i, i, v) = false := by
        simp [keyIs]
      have hlt : j' < t.length := by simpa using h
      simp only [hk, Bool.false_eq_true, ite_false]
      rw [show i + (j' + 1) = (i + 1) + j' by omega, ih (i + 1) j' hlt]
      simp

theorem ratTrunc_natCast (k : Nat) : ratTrunc (k : ℚ) = (k : ℤ) := by
  unfold ratTrunc
  rw [Rat.num_natCast, Rat.den_natCast]
  have h : (0 : ℤ) ≤ (k : ℤ) := by omega
  rw [if_pos h]
  simp only [Nat.div_one]
  omega

theorem ratTrunc_intCast (k : ℤ) : ratTrunc (k : ℚ) = k := by
  unfold ratTrunc
  rw [Rat.num_intCast, Rat.den_intCast]
  by_cases h : (0 : ℤ) ≤ k
  · rw [if_pos h]
    simp only [Nat.div_one]
    omega
  · rw [if_neg h]
    simp only [Nat.div_one]
    omega

theorem checkIdx_nat (k n : Nat) (h : k < n) : checkIdx (k : ℤ) n = .ok k := by
  have h1 : ¬(((k : ℕ) : ℤ) < -(n : ℤ) ∨ (n : ℤ) ≤ ((k : ℕ) : ℤ)) := by omega
  have h2 : ¬(((k : ℕ) : ℤ) < 0) := by omega
  unfold checkIdx
  rw [if_neg h1, if_neg h2]
  have ht : ((k : ℕ) : ℤ).toNat = k := by omega
  rw [ht]

theorem checkIdx_out (i : ℤ) (n : Nat) (h : i < -(n : ℤ) ∨ (n : ℤ) ≤ i) :
    checkIdx i n = .error .indexOutOfRange := by
  unfold checkIdx
  rw [if_pos h]

theorem checkIdx_ok (i : ℤ) (n : Nat) (h1 : -(n : ℤ) ≤ i) (h2 : i < (n : ℤ)) :
    checkIdx i n = .ok (wrapIdx i n) := by
  have h : ¬(i < -(n : ℤ) ∨ (n : ℤ) ≤ i) := by omega
  unfold checkIdx wrapIdx
  rw [if_neg h]
  by_cases hneg : i < 0
  · rw [if_pos hneg, if_pos hneg]
  · rw [if_neg hneg, if_neg hneg]

theorem procEdge_renderTriple (M : SpMat) (e : Entry)
    (h1 : e.1 < M.n) (h2 : e.2.1 < M.n) :
    procEdge M (renderTriple e) = .ok (M.setEntry e.1 e.2.1 e.2.2) := by
  have hw : getTok (renderTriple e) 2 = .ok e.2.2 := rfl
  have hr : getTok (renderTriple e) 0 = .ok ((e.1 : ℚ)) := rfl
  have hc : getTok (renderTriple e) 1 = .ok ((e.2.1 : ℚ)) := rfl
  simp only [procEdge, hw, hr, hc, bind_ok_eq, ratTrunc_natCast,
    checkIdx_nat e.1 M.n h1, checkIdx_nat e.2.1 M.n h2, map_ok_eq, pure_ok_eq]

theorem procEdge_short (M : SpMat) (toks : Line) (h : toks.length < 3) :
    procEdge M toks = .error .indexError := by
  have h2 : toks[2]? = none := List.getElem?_eq_none (by omega)
  have hw : getTok toks 2 = .error .indexError := by
    simp [getTok, h2]
  simp only [procEdge, hw, bind_err_eq]

theorem procEdge_rowOut (M : SpMat) (ri ci : ℤ) (w : ℚ)
    (h : ri < -(M.n : ℤ) ∨ (M.n : ℤ) ≤ ri) :
    procEdge M [some (ri : ℚ), some (ci : ℚ), some w] = .error .indexOutOfRange := by
  have hw : getTok [some (ri : ℚ), some (ci : ℚ), some w] 2 = .ok w := rfl
  have hr : getTok [some (ri : ℚ), some (ci : ℚ), some w] 0 = .ok ((ri : ℚ)) := rfl
  have hc : getTok [some (ri : ℚ), some (ci : ℚ), some w] 1 = .ok ((ci : ℚ)) := rfl
  simp only [procEdge, hw, hr, hc, bind_ok_eq, ratTrunc_intCast,
    checkIdx_out _ _ h, bind_err_eq]

theorem procEdge_colOut (M : SpMat) (ri ci : ℤ) (w : ℚ)
    (hr1 : -(M.n : ℤ) ≤ ri) (hr2 : ri < (M.n : ℤ))
    (h : ci < -(M.n : ℤ) ∨ (M.n : ℤ) ≤ ci) :
    procEdge M [some (ri : ℚ), some (ci : ℚ), some w] = .error .indexOutOfRange := by
  have hw : getTok [some (ri : ℚ), some (ci : ℚ), some w] 2 = .ok w := rfl
  have hr : getTok [some (ri : ℚ), some (ci : ℚ), some w] 0 = .ok ((ri : ℚ)) := rfl
  have hc : getTok [some (ri : ℚ), some (ci : ℚ), some w] 1 = .ok ((ci : ℚ)) := rfl
  simp only [procEdge, hw, hr, hc, bind_ok_eq, ratTrunc_intCast,
    checkIdx_ok ri M.n hr1 hr2, checkIdx_out _ _ h, map_err_eq, bind_err_eq]

theorem procEdge_wrap (M : SpMat) (ri ci : ℤ) (w : ℚ)
    (hr1 : -(M.n : ℤ) ≤ ri) (hr2 : ri < (M.n : ℤ))
    (hc1 : -(M.n : ℤ) ≤ ci) (hc2 : ci < (M.n : ℤ)) :
    procEdge M [some (ri : ℚ), some (ci : ℚ), some w]
      = .ok (M.setEntry (wrapIdx ri M.n) (wrapIdx ci M.n) w) := by
  have hw : getTok [some (ri : ℚ), some (ci : ℚ), some w] 2 = .ok w := rfl
  have hr : getTok [some (ri : ℚ), some (ci : ℚ), some w] 0 = .ok ((ri : ℚ)) := rfl
  have hc : getTok [some (ri : ℚ), some (ci : ℚ), some w] 1 = .ok ((ci : ℚ)) := rfl
  simp only [procEdge, hw, hr, hc, bind_ok_eq, ratTrunc_intCast,
    checkIdx_ok ri M.n hr1 hr2, checkIdx_ok ci M.n hc1 hc2, map_ok_eq, pure_ok_eq]

theorem procAll_error (M : SpMat) (l : Line) (ls : List Line) (e : LoadError)
    (h : procEdge M l = .error e) : procAll M (l :: ls) = .error e := by
  simp [procAll, h]

theorem procAll_good (es : List Entry) (l : List Line) (M : SpMat)
    (hb : ∀ e ∈ es, e.1 < M.n ∧ e.2.1 < M.n) :
    procAll M (es.map renderTriple ++ l) = procAll (applyEdges M es) l := by
  induction es generalizing M with
  | nil => simp [applyEdges_nil]
  | cons e t ih =>
    have hbe := hb e (List.mem_cons_self e t)
    have step := procEdge_renderTriple M e hbe.1 hbe.2
    have hbt : ∀ d ∈ t, d.1 < (M.setEntry e.1 e.2.1 e.2.2).n ∧
        d.2.1 < (M.setEntry e.1 e.2.1 e.2.2).n := by
      intro d hd
      rw [setEntry_n]
      exact hb d (List.mem_cons_of_mem e hd)
    simp only [List.map_cons, List.cons_append, procAll, step, applyEdges_cons]
    exact ih (M.setEntry e.1 e.2.1 e.2.2) hbt

theorem parseFloats_map_some (vs : List ℚ) : parseFloats (vs.map some) = .ok vs := by
  induction vs with
  | nil => rfl
  | cons v t ih => simp [parseFloats, ih, Except.map]

theorem loadflag_cons (l0 : Line) (vs : List ℚ) (l2 : Line) (rest : List Line) :
    loadflag (l0 :: (vs.map some) :: l2 :: rest)
      = procAll ⟨vs.length, .floatT, diagEntries 0 vs⟩ rest := by
  simp only [loadflag, List.headD_cons, parseFloats_map_some, bind_ok_eq,
    List.tail_cons, List.drop_succ_cons, List.drop_zero]


theorem keyLe_total (d e : Entry) : keyLe d e = true ∨ keyLe e d = true := by
  simp only [keyLe, Bool.or_eq_true, decide_eq_true_eq, Bool.and_eq_true, beq_iff_eq]
  omega

theorem keyLe_trans (a b c : Entry) (h1 : keyLe a b = true) (h2 : keyLe b c = true) :
    keyLe a c = true := by
  simp only [keyLe, Bool.or_eq_true, decide_eq_true_eq, Bool.and_eq_true, beq_iff_eq] at *
  omega

theorem perm_insEntry (e : Entry) (l : List Entry) : (insEntry e l).Perm (e :: l) := by
  induction l with
  | nil => simp [insEntry]
  | cons d t ih =>
    rw [insEntry]
    by_cases h : keyLe e d
    · rw [if_pos h]
    · rw [if_neg h]
      exact ((ih.cons d).trans (List.Perm.swap e d t))

theorem perm_canonSort (l : List Entry) : (canonSort l).Perm l := by
  induction l with
  | nil => simp [canonSort]
  | cons x t ih =>
    show (insEntry x (canonSort t)).Perm (x :: t)
    exact (perm_insEntry x (canonSort t)).trans (ih.cons x)

theorem sorted_insEntry (e : Entry) (l : List Entry)
    (h : l.Pairwise (fun a b => keyLe a b = true)) :
    (insEntry e l).Pairwise (fun a b => keyLe a b = true) := by
  induction l with
  | nil => simp [insEntry]
  | cons d t ih =>
    rw [List.pairwise_cons] at h
    obtain ⟨hd, ht⟩ := h
    rw [insEntry]
    by_cases hk : keyLe e d
    · rw [if_pos hk]
      rw [List.pairwise_cons]
      constructor
      · intro x hx
        rcases List.mem_cons.1 hx with hx | hx
        · rw [hx]; exact hk
        · exact keyLe_trans e d x hk (hd x hx)
      · rw [List.pairwise_cons]
        exact ⟨hd, ht⟩
    · rw [if_neg hk]
      rw [List.pairwise_cons]
      constructor
      · intro x hx
        have hx' : x ∈ e :: t := (perm_insEntry e t).mem_iff.1 hx
        rcases List.mem_cons.1 hx' with hx' | hx'
        · rw [hx']
          rcases keyLe_total e d with h1 | h1
          · exact absurd h1 hk
          · exact h1
        · exact hd x hx'
      · exact ih ht

theorem sorted_canonSort (l : List Entry) :
    (canonSort l).Pairwise (fun a b => keyLe a b = true) := by
  induction l with
  | nil => simp [canonSort]
  | cons x t ih =>
    show (insEntry x (canonSort t)).Pairwise _
    exact sorted_insEntry x (canonSort t) ih

theorem sorted_spFind (M : SpMat) :
    (spFind M).Pairwise (fun a b => keyLe a b = true) :=
  List.Pairwise.filter _ (sorted_canonSort M.entries)

theorem perm_spFind (M : SpMat) :
    (spFind M).Perm (M.entries.filter (fun e => decide (e.2.2 ≠ 0))) :=
  (perm_canonSort M.entries).filter _

theorem isSome_omap {α β : Type} (f : α → β) (o : Option α) :
    (o.map f).isSome = o.isSome := by
  cases o <;> rfl

theorem lastAssigned_none_of_offdiag (es : List Entry) (i : Nat)
    (hd : ∀ e ∈ es, e.1 ≠ e.2.1) : lastAssigned es i i = none := by
  unfold lastAssigned
  rw [List.find?_eq_none.2]
  · rfl
  · intro e he hke
    obtain ⟨h1, h2⟩ := (keyIs_eq_true_iff i i e).1 hke
    exact hd e (List.mem_reverse.1 he) (h1.trans h2.symm)

theorem loadflag_wellformed (hdr0 hdr1 : Line) (vs : List ℚ) (es : List Entry)
    (hb : ∀ e ∈ es, e.1 < vs.length ∧ e.2.1 < vs.length) :
    loadflag (hdr0 :: (vs.map some) :: hdr1 :: es.map renderTriple)
      = .ok (applyEdges ⟨vs.length, .floatT, diagEntries 0 vs⟩ es) := by
  rw [loadflag_cons]
  have hg := procAll_good es [] ⟨vs.length, .floatT, diagEntries 0 vs⟩ hb
  rw [List.append_nil] at hg
  rw [hg]
  rfl

theorem flagser_static_call_ok (extract : SpMat → List ℚ × List (Nat × Nat × ℚ))
    (M : SpMat) (minDim : ℤ) (maxDim : MaxDim) (directed : Bool) (filt : String)
    (coeff : ℤ) (approx : Option ℤ) (hf : filt ∈ implemented_filtrations) :
    flagser_static_call extract M minDim maxDim directed filt coeff approx
      = .ok ⟨(extract M).1, (extract M).2, minDim, normMaxDim maxDim, directed, coeff,
             normApprox approx, filt⟩ := by
  unfold flagser_static_call
  rw [if_pos hf]

theorem flagser_persistence_pre_ok (mel : Option EV) (dt : Dtype) (maxDim : MaxDim)
    (approx : Option ℤ) (filt : String) (hf : filt ∈ implemented_filtrations) :
    flagser_persistence_pre mel dt maxDim approx filt
      = .ok (resolveMEL mel dt, normMaxDim maxDim, normApprox approx) := by
  unfold flagser_persistence_pre
  rw [if_pos hf]

theorem flagser_static_call_err (extract : SpMat → List ℚ × List (Nat × Nat × ℚ))
    (M : SpMat) (minDim : ℤ) (maxDim : MaxDim) (directed : Bool) (filt : String)
    (coeff : ℤ) (approx : Option ℤ) (hf : filt ∉ implemented_filtrations) :
    flagser_static_call extract M minDim maxDim directed filt coeff approx
      = .error (.valueError errMsg implemented_filtrations) := by
  unfold flagser_static_call
  rw [if_neg hf]

theorem flagser_persistence_pre_err (mel : Option EV) (dt : Dtype) (maxDim : MaxDim)
    (approx : Option ℤ) (filt : String) (hf : filt ∉ implemented_filtrations) :
    flagser_persistence_pre mel dt maxDim approx filt
      = .error (.valueError errMsg implemented_filtrations) := by
  unfold flagser_persistence_pre
  rw [if_neg hf]

theorem map_ok_exists {e a b : Type} (f : a → b) (x : Except e a) (v : a)
    (hx : x = .ok v) : ∃ w, x.map f = .ok w :=
  ⟨f v, by rw [hx]; rfl⟩

/-- C1: the claimed save/load round-trip fails on the code. For the
sparse float matrix `matZero01`, which stores a zero-weight edge at
`(0, 1)`, `saveflag` goes through `scipy.sparse.find`, which removes
explicitly stored zeros, so the written file has no line for `(0, 1)`;
reloading therefore yields a matrix in which `(0, 1)` is absent, even
though the vertex weights are reproduced exactly.  This contradicts
`saveflag`'s own docstring, which promises that directly assigned
off-diagonal zeros are treated explicitly. -/
theorem c1_roundtrip_drops_stored_zero :
    matZero01.presentB 0 1 = true
    ∧ matZero01.val 0 1 = 0
    ∧ loadflag (fileLines (saveflag matZero01))
        = .ok ⟨2, .floatT, [(0, 0, 1), (1, 1, 1)]⟩
    ∧ (⟨2, .floatT, [(0, 0, 1), (1, 1, 1)]⟩ : SpMat).presentB 0 1 = false
    ∧ (saveflag matZero01).vertLine = [1, 1] :=
  ⟨rfl, rfl, rfl, rfl, rfl⟩

/-- C2: for a well-formed `.flag` input — any first and third line, a
vertex-weight line of `n` numeric tokens, and edge lines that are
numeric triples with indices in `[0, n)` and off the diagonal —
`loadflag` succeeds and returns an `n`×`n` sparse matrix whose diagonal
entries are explicitly stored with exactly the vertex-line weights, in
which an off-diagonal entry is present exactly when some triple targets
it (by explicit assignment, so a triple of weight `0` yields a present
zero-weight stored entry), with the value of the last triple targeting
it. -/
theorem c2_loadflag_builds_explicit_sparse (hdr0 hdr1 : Line) (vs : List ℚ)
    (es : List Entry) (hvs : vs ≠ [])
    (hb : ∀ e ∈ es, e.1 < vs.length ∧ e.2.1 < vs.length)
    (hd : ∀ e ∈ es, e.1 ≠ e.2.1) :
    ∃ M, loadflag (hdr0 :: (vs.map some) :: hdr1 :: es.map renderTriple) = .ok M
      ∧ M.n = vs.length
      ∧ (∀ i, (hi : i < vs.length) → M.presentB i i = true ∧ M.val i i = vs[i])
      ∧ (∀ a b, a ≠ b → (M.presentB a b = true ↔ ∃ e ∈ es, e.1 = a ∧ e.2.1 = b))
      ∧ (∀ a b w, lastAssigned es a b = some w →
          M.presentB a b = true ∧ M.val a b = w) := by
  refine ⟨applyEdges ⟨vs.length, .floatT, diagEntries 0 vs⟩ es,
    loadflag_wellformed hdr0 hdr1 vs es hb, applyEdges_n _ es, ?_, ?_, ?_⟩
  · intro i hi
    have hlast : lastAssigned es i i = none := lastAssigned_none_of_offdiag es i hd
    have hdg : lookupE (diagEntries 0 vs) i i = vs[i]? := by
      have := lookupE_diagEntries_get vs 0 i hi
      simpa using this
    have hlook : lookupE (applyEdges ⟨vs.length, .floatT, diagEntries 0 vs⟩ es).entries i i
        = some vs[i] := by
      rw [lookupE_applyEdges, hlast, Option.none_or, hdg, List.getElem?_eq_getElem hi]
    constructor
    · unfold SpMat.presentB
      rw [hlook]
      rfl
    · unfold SpMat.val
      rw [hlook]
      rfl
  · intro a b hab
    have hdg : lookupE (diagEntries 0 vs) a b = none := lookupE_diagEntries_ne vs 0 a b hab
    have hlook : lookupE (applyEdges ⟨vs.length, .floatT, diagEntries 0 vs⟩ es).entries a b
        = lastAssigned es a b := by
      rw [lookupE_applyEdges, hdg, Option.or_none]
    constructor
    · intro hp
      unfold SpMat.presentB at hp
      rw [hlook] at hp
      unfold lastAssigned at hp
      rw [isSome_omap] at hp
      obtain ⟨e, he, hke⟩ := List.find?_isSome.1 hp
      obtain ⟨h1, h2⟩ := (keyIs_eq_true_iff a b e).1 hke
      exact ⟨e, List.mem_reverse.1 he, h1, h2⟩
    · rintro ⟨e, he, h1, h2⟩
      have hsome : (List.find? (keyIs a b) es.reverse).isSome = true :=
        List.find?_isSome.2 ⟨e, List.mem_reverse.2 he, (keyIs_eq_true_iff a b e).2 ⟨h1, h2⟩⟩
      unfold SpMat.presentB
      rw [hlook]
      unfold lastAssigned
      rw [isSome_omap]
      exact hsome
  · intro a b w hw
    have hlook : lookupE (applyEdges ⟨vs.length, .floatT, diagEntries 0 vs⟩ es).entries a b
        = some w := by
      rw [lookupE_applyEdges, hw]
      rfl
    constructor
    · unfold SpMat.presentB
      rw [hlook]
      rfl
    · unfold SpMat.val
      rw [hlook]
      rfl

/-- C2 witness: the theorem instantiated at a concrete 2-vertex file
with the single zero-weight edge line `0 1 0`. -/
theorem c2_witness :
    ([(1 : ℚ), 2] ≠ [])
    ∧ (∃ M, loadflag ([none, some 0] :: ([(1 : ℚ), 2].map some) :: [none, some 1] ::
          ([((0 : Nat), (1 : Nat), (0 : ℚ))].map renderTriple)) = .ok M
        ∧ M.n = 2
        ∧ M.presentB 0 0 = true ∧ M.val 0 0 = 1
        ∧ M.presentB 0 1 = true ∧ M.val 0 1 = 0
        ∧ M.presentB 1 0 = false) := by
  obtain ⟨M, hload, hn, hdiag, hoff, hlast⟩ :=
    c2_loadflag_builds_explicit_sparse [none, some 0] [none, some 1] [1, 2]
      [(0, 1, 0)] (by decide) (by decide) (by decide)
  have h00 := hdiag 0 (by norm_num)
  have h01 := hlast 0 1 0 rfl
  have h10 := hoff 1 0 (by decide)
  have hno : ¬ ∃ e ∈ [((0 : Nat), (1 : Nat), (0 : ℚ))], e.1 = 1 ∧ e.2.1 = 0 := by decide
  refine ⟨by decide, M, hload, hn, h00.1, h00.2, h01.1, h01.2, ?_⟩
  cases hpb : M.presentB 1 0 with
  | false => rfl
  | true => exact absurd (h10.1 hpb) hno

/-- C3: the edge section `saveflag` writes is not one line per present
off-diagonal entry.  For `matC3` the written edge lines are exactly the
NONZERO stored entries in row-major order — they include the diagonal
entries `(0, 0)` and `(1, 1)` (self-loops in the `.flag` format, which
the library's own docstrings forbid) and omit the explicitly stored
zero at `(0, 1)`.  The vertex-weight line itself is as claimed. -/
theorem c3_saveflag_edge_section_mismatch :
    (saveflag matC3).vertLine = [3, 4]
    ∧ (saveflag matC3).edgeLines = [[0, 0, 3], [1, 0, 5], [1, 1, 4]]
    ∧ matC3.presentB 0 1 = true
    ∧ [(0 : ℚ), 1, 0] ∉ (saveflag matC3).edgeLines
    ∧ [(0 : ℚ), 0, 3] ∈ (saveflag matC3).edgeLines :=
  ⟨rfl, rfl, rfl, by decide, by decide⟩

/-- C4: counterexample to the claim as stated.  For a matrix whose
dtype is neither integer nor floating (`bool`), an unspecified
`max_edge_length` resolves to `None` and `flagser_persistence` raises
no configuration error — the call completes and returns a result. -/
theorem c4_counterexample :
    flagser_persistence cExtractP cEngine matBool none 0 .inf true "max" 2 none
      = .ok ⟨[], [], [], 0⟩
    ∧ resolveMEL none matBool.dtype = none :=
  ⟨rfl, rfl⟩

/-- C4 (amended): when `max_edge_length` is `None`, `flagser_persistence`
resolves it to `np.iinfo(dtype).max` for an integer dtype and to
`np.inf` for a floating dtype; but for a dtype that is neither (for
example `bool`) no configuration error is raised — `_max_edge_length`
silently stays `None` and the computation proceeds to a result. An
explicit `max_edge_length` passes through unchanged. -/
theorem c4_max_edge_length_resolution (m : ℤ) (v : EV) (dt : Dtype)
    (maxDim : MaxDim) (approx : Option ℤ) (filt : String)
    (hf : filt ∈ implemented_filtrations) :
    resolveMEL none (.intT m) = some (.num (m : ℚ))
    ∧ resolveMEL none .floatT = some .pinf
    ∧ resolveMEL none .boolT = none
    ∧ resolveMEL (some v) dt = some v
    ∧ ((flagser_persistence_pre none .boolT maxDim approx filt).map (fun p => p.1)
        = .ok none)
    ∧ (∀ (extract : SpMat → Option EV → List ℚ × List (Nat × Nat × ℚ))
          (engine : EngineCall → EngineResult) (M : SpMat) (minDim : ℤ)
          (directed : Bool) (coeff : ℤ), M.dtype = .boolT →
        ∃ out, flagser_persistence extract engine M none minDim maxDim directed filt
            coeff approx = .ok out) := by
  refine ⟨rfl, rfl, rfl, ?_, ?_, ?_⟩
  · cases dt <;> rfl
  · rw [flagser_persistence_pre_ok _ _ _ _ _ hf]
    rfl
  · intro extract engine M minDim directed coeff hdt
    exact map_ok_exists _ _ _ (flagser_persistence_pre_ok none M.dtype maxDim approx filt hf)

/-- C4 witness: the amended theorem instantiated at concrete
arguments. -/
theorem c4_witness :
    ("max" ∈ implemented_filtrations)
    ∧ resolveMEL none (.intT 7) = some (.num ((7 : ℤ) : ℚ))
    ∧ resolveMEL none .floatT = some .pinf
    ∧ resolveMEL none .boolT = none
    ∧ resolveMEL (some (.num 3)) .floatT = some (.num 3)
    ∧ ((flagser_persistence_pre none .boolT .inf none "max").map (fun p => p.1) = .ok none)
    ∧ (∃ out, flagser_persistence cExtractP cEngine matBool none 0 .inf true "max" 2 none
        = .ok out) := by
  obtain ⟨h1, h2, h3, h4, h5, h6⟩ :=
    c4_max_edge_length_resolution 7 (.num 3) .floatT .inf none "max" (by decide)
  exact ⟨by decide, h1, h2, h3, h4, h5, h6 cExtractP cEngine matBool 0 true 2 rfl⟩

/-- C5: counterexample to the claim as stated.  For the invalid name
`"bogus"` the raised `ValueError` carries only the constant message and
the registry list: the invalid value `"bogus"` occurs neither as a
substring of the message nor in the list — the error does not name the
invalid value. -/
theorem c5_counterexample :
    flagser_static cExtractS cEngine mat1x1 0 .inf true "bogus" 2 none
      = .error (.valueError errMsg implemented_filtrations)
    ∧ listHasSub "bogus".data errMsg.data = false
    ∧ "bogus" ∉ implemented_filtrations :=
  ⟨rfl, by decide, by decide⟩

/-- C5 (amended): for every filtration name outside the fixed
eleven-name registry, `flagser_static` and `flagser_persistence` raise
— for every engine and extractor, hence before any extraction or
engine call — the `ValueError` whose payload is the constant message
and the registry list (the invalid value is not part of the payload);
every name in the registry is accepted and the call returns a
result. -/
theorem c5_filtration_registry :
    (∀ filt, filt ∉ implemented_filtrations →
      (∀ (extract : SpMat → List ℚ × List (Nat × Nat × ℚ))
          (engine : EngineCall → EngineResult) (M : SpMat) (minDim : ℤ)
          (maxDim : MaxDim) (directed : Bool) (coeff : ℤ) (approx : Option ℤ),
        flagser_static extract engine M minDim maxDim directed filt coeff approx
          = .error (.valueError errMsg implemented_filtrations))
      ∧ (∀ (extract : SpMat → Option EV → List ℚ × List (Nat × Nat × ℚ))
          (engine : EngineCall → EngineResult) (M : SpMat) (mel : Option EV)
          (minDim : ℤ) (maxDim : MaxDim) (directed : Bool) (coeff : ℤ)
          (approx : Option ℤ),
        flagser_persistence extract engine M mel minDim maxDim directed filt coeff approx
          = .error (.valueError errMsg implemented_filtrations)))
    ∧ (∀ filt ∈ implemented_filtrations,
      (∀ (extract : SpMat → List ℚ × List (Nat × Nat × ℚ))
          (engine : EngineCall → EngineResult) (M : SpMat) (minDim : ℤ)
          (maxDim : MaxDim) (directed : Bool) (coeff : ℤ) (approx : Option ℤ),
        ∃ out, flagser_static extract engine M minDim maxDim directed filt coeff approx
          = .ok out)
      ∧ (∀ (extract : SpMat → Option EV → List ℚ × List (Nat × Nat × ℚ))
          (engine : EngineCall → EngineResult) (M : SpMat) (mel : Option EV)
          (minDim : ℤ) (maxDim : MaxDim) (directed : Bool) (coeff : ℤ)
          (approx : Option ℤ),
        ∃ out, flagser_persistence extract engine M mel minDim maxDim directed filt coeff
            approx = .ok out)) := by
  constructor
  · intro filt hf
    constructor
    · intro extract engine M minDim maxDim directed coeff approx
      unfold flagser_static
      rw [flagser_static_call_err _ _ _ _ _ _ _ _ hf]
      rfl
    · intro extract engine M mel minDim maxDim directed coeff approx
      unfold flagser_persistence
      rw [flagser_persistence_pre_err _ _ _ _ _ hf]
      rfl
  · intro filt hf
    constructor
    · intro extract engine M minDim maxDim directed coeff approx
      exact map_ok_exists _ _ _
        (flagser_static_call_ok extract M minDim maxDim directed filt coeff approx hf)
    · intro extract engine M mel minDim maxDim directed coeff approx
      exact map_ok_exists _ _ _
        (flagser_persistence_pre_ok mel M.dtype maxDim approx filt hf)

/-- C5 witness: the amended theorem instantiated at the invalid name
`"notreal"` and the valid name `"zero"`. -/
theorem c5_witness :
    ("notreal" ∉ implemented_filtrations)
    ∧ flagser_static cExtractS cEngine mat1x1 0 .inf true "notreal" 2 none
        = .error (.valueError errMsg implemented_filtrations)
    ∧ flagser_persistence cExtractP cEngine mat1x1 none 0 .inf true "notreal" 2 none
        = .error (.valueError errMsg implemented_filtrations)
    ∧ ("zero" ∈ implemented_filtrations)
    ∧ (∃ out, flagser_static cExtractS cEngine mat1x1 0 .inf true "zero" 2 none = .ok out)
    ∧ (∃ out, flagser_persistence cExtractP cEngine mat1x1 none 0 .inf true "zero" 2 none
        = .ok out) := by
  obtain ⟨herr, hok⟩ := c5_filtration_registry
  refine ⟨by decide, ?_, ?_, by decide, ?_, ?_⟩
  · exact (herr "notreal" (by decide)).1 cExtractS cEngine mat1x1 0 .inf true 2 none
  · exact (herr "notreal" (by decide)).2 cExtractP cEngine mat1x1 none 0 .inf true 2 none
  · exact (hok "zero" (by decide)).1 cExtractS cEngine mat1x1 0 .inf true 2 none
  · exact (hok "zero" (by decide)).2 cExtractP cEngine mat1x1 none 0 .inf true 2 none

/-- C6: counterexample to the claim as stated.  The row index `-1` is
outside `[0, n)`, yet `loadflag` raises no error on the edge line
`-1 0 5` of a 2-vertex file: scipy wraps the index to `n - 1 = 1` and
assigns entry `(1, 0)`. -/
theorem c6_counterexample :
    loadflag [[none, some 0], [some 1, some 1], [none, some 1], [some (-1), some 0, some 5]]
      = .ok ⟨2, .floatT, [(0, 0, 1), (1, 1, 1), (1, 0, 5)]⟩
    ∧ (⟨2, .floatT, [(0, 0, 1), (1, 1, 1), (1, 0, 5)]⟩ : SpMat).val 1 0 = 5 :=
  ⟨rfl, rfl⟩

/-- C6 (amended): `loadflag` fails when the vertex-weight line is
missing (empty file: `StopIteration`; only one line: the missing line
reads as the empty string and `float('')` raises `ValueError`), fails
with `IndexError` when an edge line has fewer than three tokens, and
fails with scipy's `IndexError` when a row or column index falls
outside `[-n, n)`; but an index in `[-n, -1]` is not rejected — it
wraps around to `n + i` by Python negative indexing and the entry is
assigned there. -/
theorem c6_loadflag_failure_modes :
    (loadflag [] = .error .stopIteration)
    ∧ (∀ l0 : Line, loadflag [l0] = .error .valueError)
    ∧ (∀ (l0 l2 : Line) (vs : List ℚ) (es : List Entry) (bad : Line) (rest : List Line),
        (∀ e ∈ es, e.1 < vs.length ∧ e.2.1 < vs.length) → bad.length < 3 →
        loadflag (l0 :: (vs.map some) :: l2 :: (es.map renderTriple ++ bad :: rest))
          = .error .indexError)
    ∧ (∀ (l0 l2 : Line) (vs : List ℚ) (es : List Entry) (ri ci : ℤ) (w : ℚ)
          (rest : List Line),
        (∀ e ∈ es, e.1 < vs.length ∧ e.2.1 < vs.length) →
        (ri < -(vs.length : ℤ) ∨ (vs.length : ℤ) ≤ ri) →
        loadflag (l0 :: (vs.map some) :: l2 ::
            (es.map renderTriple ++ [some (ri : ℚ), some (ci : ℚ), some w] :: rest))
          = .error .indexOutOfRange)
    ∧ (∀ (l0 l2 : Line) (vs : List ℚ) (es : List Entry) (ri ci : ℤ) (w : ℚ)
          (rest : List Line),
        (∀ e ∈ es, e.1 < vs.length ∧ e.2.1 < vs.length) →
        -(vs.length : ℤ) ≤ ri → ri < (vs.length : ℤ) →
        (ci < -(vs.length : ℤ) ∨ (vs.length : ℤ) ≤ ci) →
        loadflag (l0 :: (vs.map some) :: l2 ::
            (es.map renderTriple ++ [some (ri : ℚ), some (ci : ℚ), some w] :: rest))
          = .error .indexOutOfRange)
    ∧ (∀ (l0 l2 : Line) (vs : List ℚ) (es : List Entry) (ri ci : ℤ) (w : ℚ),
        (∀ e ∈ es, e.1 < vs.length ∧ e.2.1 < vs.length) →
        -(vs.length : ℤ) ≤ ri → ri < (vs.length : ℤ) →
        -(vs.length : ℤ) ≤ ci → ci < (vs.length : ℤ) →
        ∃ M, loadflag (l0 :: (vs.map some) :: l2 ::
            (es.map renderTriple ++ [[some (ri : ℚ), some (ci : ℚ), some w]]))
          = .ok M
          ∧ M.presentB (wrapIdx ri vs.length) (wrapIdx ci vs.length) = true
          ∧ M.val (wrapIdx ri vs.length) (wrapIdx ci vs.length) = w) := by
  refine ⟨rfl, fun l0 => rfl, ?_, ?_, ?_, ?_⟩
  · intro l0 l2 vs es bad rest hb hbad
    rw [loadflag_cons, procAll_good es _ _ hb]
    exact procAll_error _ _ _ _ (procEdge_short _ bad hbad)
  · intro l0 l2 vs es ri ci w rest hb h
    rw [loadflag_cons, procAll_good es _ _ hb]
    have hn : (applyEdges ⟨vs.length, .floatT, diagEntries 0 vs⟩ es).n = vs.length :=
      applyEdges_n _ _
    have h' : ri < -(((applyEdges ⟨vs.length, .floatT, diagEntries 0 vs⟩ es).n : Nat) : ℤ)
        ∨ (((applyEdges ⟨vs.length, .floatT, diagEntries 0 vs⟩ es).n : Nat) : ℤ) ≤ ri := by
      rw [hn]; exact h
    exact procAll_error _ _ _ _ (procEdge_rowOut _ ri ci w h')
  · intro l0 l2 vs es ri ci w rest hb hr1 hr2 h
    rw [loadflag_cons, procAll_good es _ _ hb]
    have hn : (applyEdges ⟨vs.length, .floatT, diagEntries 0 vs⟩ es).n = vs.length :=
      applyEdges_n _ _
    have hr1' : -(((applyEdges ⟨vs.length, .floatT, diagEntries 0 vs⟩ es).n : Nat) : ℤ) ≤ ri := by
      rw [hn]; exact hr1
    have hr2' : ri < (((applyEdges ⟨vs.length, .floatT, diagEntries 0 vs⟩ es).n : Nat) : ℤ) := by
      rw [hn]; exact hr2
    have h' : ci < -(((applyEdges ⟨vs.length, .floatT, diagEntries 0 vs⟩ es).n : Nat) : ℤ)
        ∨ (((applyEdges ⟨vs.length, .floatT, diagEntries 0 vs⟩ es).n : Nat) : ℤ) ≤ ci := by
      rw [hn]; exact h
    exact procAll_error _ _ _ _ (procEdge_colOut _ ri ci w hr1' hr2' h')
  · intro l0 l2 vs es ri ci w hb hr1 hr2 hc1 hc2
    have hn : (applyEdges ⟨vs.length, .floatT, diagEntries 0 vs⟩ es).n = vs.length :=
      applyEdges_n _ _
    have hr1' : -(((applyEdges ⟨vs.length, .floatT, diagEntries 0 vs⟩ es).n : Nat) : ℤ) ≤ ri := by
      rw [hn]; exact hr1
    have hr2' : ri < (((applyEdges ⟨vs.length, .floatT, diagEntries 0 vs⟩ es).n : Nat) : ℤ) := by
      rw [hn]; exact hr2
    have hc1' : -(((applyEdges ⟨vs.length, .floatT, diagEntries 0 vs⟩ es).n : Nat) : ℤ) ≤ ci := by
      rw [hn]; exact hc1
    have hc2' : ci < (((applyEdges ⟨vs.length, .floatT, diagEntries 0 vs⟩ es).n : Nat) : ℤ) := by
      rw [hn]; exact hc2
    have hpe := procEdge_wrap (applyEdges ⟨vs.length, .floatT, diagEntries 0 vs⟩ es)
      ri ci w hr1' hr2' hc1' hc2'
    rw [hn] at hpe
    have hl : lookupE (setEntryL
        (applyEdges ⟨vs.length, .floatT, diagEntries 0 vs⟩ es).entries
        (wrapIdx ri vs.length) (wrapIdx ci vs.length) w)
        (wrapIdx ri vs.length) (wrapIdx ci vs.length) = some w := by
      rw [lookupE_setEntryL]
      simp
    refine ⟨(applyEdges ⟨vs.length, .floatT, diagEntries 0 vs⟩ es).setEntry
        (wrapIdx ri vs.length) (wrapIdx ci vs.length) w, ?_, ?_, ?_⟩
    · rw [loadflag_cons, procAll_good es _ _ hb]
      simp [procAll, hpe]
    · unfold SpMat.presentB SpMat.setEntry
      rw [hl]
      rfl
    · unfold SpMat.val SpMat.setEntry
      rw [hl]
      rfl

/-- C6 witness: every conjunct of the amended theorem instantiated at a
concrete input. -/
theorem c6_witness :
    (loadflag [] = .error .stopIteration)
    ∧ (loadflag [[none, some 0]] = .error .valueError)
    ∧ (loadflag ([none, some 0] :: ([(1 : ℚ)].map some) :: [none, some 1] ::
        (([] : List Entry).map renderTriple ++ [some (2 : ℚ), some 0] :: []))
        = .error .indexError)
    ∧ (loadflag ([none, some 0] :: ([(1 : ℚ)].map some) :: [none, some 1] ::
        (([] : List Entry).map renderTriple
          ++ [some ((5 : ℤ) : ℚ), some ((0 : ℤ) : ℚ), some (3 : ℚ)] :: []))
        = .error .indexOutOfRange)
    ∧ (loadflag ([none, some 0] :: ([(1 : ℚ)].map some) :: [none, some 1] ::
        (([] : List Entry).map renderTriple
          ++ [some ((0 : ℤ) : ℚ), some ((-2 : ℤ) : ℚ), some (3 : ℚ)] :: []))
        = .error .indexOutOfRange)
    ∧ (∃ M, loadflag ([none, some 0] :: ([(1 : ℚ), 2].map some) :: [none, some 1] ::
        (([] : List Entry).map renderTriple
          ++ [[some ((-1 : ℤ) : ℚ), some ((0 : ℤ) : ℚ), some (9 : ℚ)]]))
        = .ok M
        ∧ M.presentB (wrapIdx (-1) 2) (wrapIdx 0 2) = true
        ∧ M.val (wrapIdx (-1) 2) (wrapIdx 0 2) = 9) := by
  obtain ⟨w1, w2, w3, w4, w5, w6⟩ := c6_loadflag_failure_modes
  refine ⟨w1, w2 [none, some 0], ?_, ?_, ?_, ?_⟩
  · exact w3 [none, some 0] [none, some 1] [1] [] [some 2, some 0] [] (by decide) (by decide)
  · exact w4 [none, some 0] [none, some 1] [1] [] 5 0 3 [] (by decide) (by decide)
  · exact w5 [none, some 0] [none, some 1] [1] [] 0 (-2) 3 [] (by decide) (by decide)
      (by decide) (by decide)
  · obtain ⟨M, h1, h2, h3⟩ := w6 [none, some 0] [none, some 1] [1, 2] [] (-1) 0 9
      (by decide) (by decide) (by decide) (by decide) (by decide)
    exact ⟨M, h1, h2, h3⟩

/-- C7: both in `flagser_static` (through the engine-call tuple) and in
`flagser_persistence` (through its parameter prefix), the unbounded
`max_dimension` request `np.inf` maps to the engine sentinel `-1` while
any concrete bound `k` passes through unchanged, and the
`approximation` request `None` maps to `-1` while any concrete budget
`b` — negative budgets (meaning highest precision) included — passes
through unchanged. -/
theorem c7_sentinel_mapping (extract : SpMat → List ℚ × List (Nat × Nat × ℚ))
    (M : SpMat) (minDim : ℤ) (directed : Bool) (coeff : ℤ) (filt : String)
    (hf : filt ∈ implemented_filtrations) (k b : ℤ) (mel : Option EV) (dt : Dtype)
    (maxDim : MaxDim) (approx : Option ℤ) :
    ((flagser_static_call extract M minDim .inf directed filt coeff approx).map
        (fun c => c.maxDim) = .ok (-1))
    ∧ ((flagser_static_call extract M minDim (.val k) directed filt coeff approx).map
        (fun c => c.maxDim) = .ok k)
    ∧ ((flagser_static_call extract M minDim maxDim directed filt coeff none).map
        (fun c => c.approx) = .ok (-1))
    ∧ ((flagser_static_call extract M minDim maxDim directed filt coeff (some b)).map
        (fun c => c.approx) = .ok b)
    ∧ ((flagser_persistence_pre mel dt .inf approx filt).map (fun p => p.2.1) = .ok (-1))
    ∧ ((flagser_persistence_pre mel dt (.val k) approx filt).map (fun p => p.2.1) = .ok k)
    ∧ ((flagser_persistence_pre mel dt maxDim none filt).map (fun p => p.2.2) = .ok (-1))
    ∧ ((flagser_persistence_pre mel dt maxDim (some b) filt).map (fun p => p.2.2) = .ok b) := by
  refine ⟨?_, ?_, ?_, ?_, ?_, ?_, ?_, ?_⟩
  · rw [flagser_static_call_ok _ _ _ _ _ _ _ _ hf]; rfl
  · rw [flagser_static_call_ok _ _ _ _ _ _ _ _ hf]; rfl
  · rw [flagser_static_call_ok _ _ _ _ _ _ _ _ hf]; rfl
  · rw [flagser_static_call_ok _ _ _ _ _ _ _ _ hf]; rfl
  · rw [flagser_persistence_pre_ok _ _ _ _ _ hf]; rfl
  · rw [flagser_persistence_pre_ok _ _ _ _ _ hf]; rfl
  · rw [flagser_persistence_pre_ok _ _ _ _ _ hf]; rfl
  · rw [flagser_persistence_pre_ok _ _ _ _ _ hf]; rfl

/-- C7 witness: the theorem instantiated at concrete arguments,
including the negative budget `-3`. -/
theorem c7_witness :
    ("max" ∈ implemented_filtrations)
    ∧ (((flagser_static_call cExtractS mat1x1 0 .inf true "max" 2 none).map
          (fun c => c.maxDim) = .ok (-1))
      ∧ ((flagser_static_call cExtractS mat1x1 0 (.val 5) true "max" 2 none).map
          (fun c => c.maxDim) = .ok 5)
      ∧ ((flagser_static_call cExtractS mat1x1 0 .inf true "max" 2 none).map
          (fun c => c.approx) = .ok (-1))
      ∧ ((flagser_static_call cExtractS mat1x1 0 .inf true "max" 2 (some (-3))).map
          (fun c => c.approx) = .ok (-3))
      ∧ ((flagser_persistence_pre none .floatT .inf none "max").map (fun p => p.2.1)
          = .ok (-1))
      ∧ ((flagser_persistence_pre none .floatT (.val 5) none "max").map (fun p => p.2.1)
          = .ok 5)
      ∧ ((flagser_persistence_pre none .floatT .inf none "max").map (fun p => p.2.2)
          = .ok (-1))
      ∧ ((flagser_persistence_pre none .floatT .inf (some (-3)) "max").map (fun p => p.2.2)
          = .ok (-3))) :=
  ⟨by decide, c7_sentinel_mapping cExtractS mat1x1 0 true 2 "max" (by decide) 5 (-3)
    none .floatT .inf none⟩

/-- C8: counterexample to the claim as stated.  `matC8` stores its two
edges in the order `(1, 0)`, `(0, 1)`, but `saveflag` writes the edge
lines in row-major sorted order `(0, 1)`, `(1, 0)` — the storage order
of the input matrix does not determine the order of the edge lines. -/
theorem c8_counterexample :
    matC8.entries.map (fun e => [(e.1 : ℚ), (e.2.1 : ℚ), e.2.2]) = [[1, 0, 5], [0, 1, 7]]
    ∧ (saveflag matC8).edgeLines = [[0, 1, 7], [1, 0, 5]]
    ∧ (saveflag matC8).edgeLines ≠ matC8.entries.map (fun e => [(e.1 : ℚ), (e.2.1 : ℚ), e.2.2]) :=
  ⟨rfl, rfl, by decide⟩

/-- C8 (amended): `saveflag` does not enumerate the edge lines in the
storage order of the matrix: `scipy.sparse.find` canonicalises, so the
edge lines are the nonzero stored entries in row-major sorted order —
a permutation of the nonzero stored entries, sorted by `keyLe` —
independently of the order in which the structure tracks them. -/
theorem c8_sorted_enumeration (M : SpMat) (hb : M.dtype ≠ .boolT) :
    (saveflag M).edgeLines = (spFind M).map (fun e => [(e.1 : ℚ), (e.2.1 : ℚ), e.2.2])
    ∧ (spFind M).Pairwise (fun a b => keyLe a b = true)
    ∧ (spFind M).Perm (M.entries.filter (fun e => decide (e.2.2 ≠ 0))) := by
  refine ⟨?_, sorted_spFind M, perm_spFind M⟩
  unfold saveflag
  rw [if_neg hb]

/-- C8 witness: the amended theorem instantiated at `matC8`. -/
theorem c8_witness :
    (matC8.dtype ≠ .boolT)
    ∧ ((saveflag matC8).edgeLines
        = (spFind matC8).map (fun e => [(e.1 : ℚ), (e.2.1 : ℚ), e.2.2])
      ∧ (spFind matC8).Pairwise (fun a b => keyLe a b = true)
      ∧ (spFind matC8).Perm (matC8.entries.filter (fun e => decide (e.2.2 ≠ 0)))) :=
  ⟨by decide, c8_sorted_enumeration matC8 (by decide)⟩

/-- C9: with any engine output, `flagser_persistence` returns the
engine's diagrams transformed elementwise by
`np.nan_to_num(..., posinf=_max_edge_length)`: every positive-infinity
value becomes the resolved `max_edge_length` `r` and every NaN becomes
zero; `flagser_static` returns the engine's diagrams unchanged, with no
substitution. -/
theorem c9_posinf_nan_substitution (h : EngineResult)
    (extract : SpMat → Option EV → List ℚ × List (Nat × Nat × ℚ))
    (extractS : SpMat → List ℚ × List (Nat × Nat × ℚ))
    (M : SpMat) (mel : Option EV) (r : EV)
    (hres : resolveMEL mel M.dtype = some r)
    (minDim : ℤ) (maxDim : MaxDim) (directed : Bool) (coeff : ℤ)
    (approx : Option ℤ) (filt : String) (hf : filt ∈ implemented_filtrations) :
    (flagser_persistence extract (fun _ => h) M mel minDim maxDim directed filt coeff approx
      = .ok ⟨h.diagrams.map (fun d => d.map
            (fun pr => (nanSub (some r) pr.1, nanSub (some r) pr.2))),
          h.cellCount, h.betti, h.euler⟩)
    ∧ nanSub (some r) .pinf = r
    ∧ nanSub (some r) .nan = .num 0
    ∧ (∀ (k i : Nat) (b : EV) (d : List (EV × EV)),
        h.diagrams[k]? = some d → d[i]? = some (b, EV.pinf) →
        ∃ d' : List (EV × EV), (h.diagrams.map (fun d => d.map
            (fun pr => (nanSub (some r) pr.1, nanSub (some r) pr.2))))[k]? = some d'
          ∧ d'[i]? = some (nanSub (some r) b, r))
    ∧ (flagser_static extractS (fun _ => h) M minDim maxDim directed filt coeff approx
      = .ok ⟨h.diagrams, h.cellCount, h.betti, h.euler⟩) := by
  refine ⟨?_, rfl, rfl, ?_, ?_⟩
  · unfold flagser_persistence
    rw [flagser_persistence_pre_ok _ _ _ _ _ hf, hres]
    rfl
  · intro k i b d hk hi
    refine ⟨d.map (fun pr => (nanSub (some r) pr.1, nanSub (some r) pr.2)), ?_, ?_⟩
    · rw [List.getElem?_map, hk]
      rfl
    · rw [List.getElem?_map, hi]
      rfl
  · unfold flagser_static
    rw [flagser_static_call_ok _ _ _ _ _ _ _ _ hf]
    rfl

/-- C9 witness: the theorem instantiated at the concrete engine result
`engRes9`, whose diagram holds a positive-infinity death and a NaN
birth, with resolved maximum edge length `10`. -/
theorem c9_witness :
    (resolveMEL (some (.num 10)) mat1x1.dtype = some (.num 10))
    ∧ ("max" ∈ implemented_filtrations)
    ∧ (flagser_persistence cExtractP (fun _ => engRes9) mat1x1 (some (.num 10)) 0 .inf
          true "max" 2 none
        = .ok ⟨engRes9.diagrams.map (fun d => d.map
              (fun pr => (nanSub (some (.num 10)) pr.1, nanSub (some (.num 10)) pr.2))),
            engRes9.cellCount, engRes9.betti, engRes9.euler⟩)
    ∧ nanSub (some (.num 10)) .pinf = .num 10
    ∧ nanSub (some (.num 10)) .nan = .num 0
    ∧ (∃ d' : List (EV × EV), (engRes9.diagrams.map (fun d => d.map
          (fun pr => (nanSub (some (.num 10)) pr.1, nanSub (some (.num 10)) pr.2))))[0]?
            = some d'
        ∧ d'[0]? = some (nanSub (some (.num 10)) (.num 1), .num 10))
    ∧ (flagser_static cExtractS (fun _ => engRes9) mat1x1 0 .inf true "max" 2 none
        = .ok ⟨engRes9.diagrams, engRes9.cellCount, engRes9.betti, engRes9.euler⟩) := by
  obtain ⟨p1, p2, p3, p4, p5⟩ :=
    c9_posinf_nan_substitution engRes9 cExtractP cExtractS mat1x1 (some (.num 10))
      (.num 10) rfl 0 .inf true 2 none "max" (by decide)
  exact ⟨rfl, by decide, p1, p2, p3,
    p4 0 0 (.num 1) [(.num 1, .pinf), (.nan, .num 2)] rfl rfl, p5⟩

/-- C10: `loadflag` does not reject an edge line whose row and column
indices coincide: appended after any well-formed edge lines, a diagonal
triple `(i, i, w)` is assigned like any other, overwriting the vertex
weight read from the vertex-weight line with `w`. -/
theorem c10_diagonal_edge_line_overwrites (hdr0 hdr1 : Line) (vs : List ℚ)
    (es : List Entry) (i : Nat) (w : ℚ) (hi : i < vs.length)
    (hb : ∀ e ∈ es, e.1 < vs.length ∧ e.2.1 < vs.length) :
    ∃ M, loadflag (hdr0 :: (vs.map some) :: hdr1 :: (es ++ [(i, i, w)]).map renderTriple)
        = .ok M
      ∧ M.presentB i i = true ∧ M.val i i = w ∧ M.n = vs.length := by
  have hb' : ∀ e ∈ es ++ [(i, i, w)], e.1 < vs.length ∧ e.2.1 < vs.length := by
    intro e he
    rcases List.mem_append.1 he with he | he
    · exact hb e he
    · rcases List.mem_cons.1 he with he | he
      · rw [he]; exact ⟨hi, hi⟩
      · simp at he
  refine ⟨applyEdges ⟨vs.length, .floatT, diagEntries 0 vs⟩ (es ++ [(i, i, w)]),
    loadflag_wellformed hdr0 hdr1 vs (es ++ [(i, i, w)]) hb', ?_, ?_, applyEdges_n _ _⟩
  all_goals
    have hlast : lastAssigned (es ++ [(i, i, w)]) i i = some w := by
      unfold lastAssigned
      rw [List.reverse_append]
      show (List.find? (keyIs i i) ((i, i, w) :: es.reverse)).map _ = _
      rw [List.find?_cons_of_pos _ (keyIs_self i i w)]
      rfl
    have hlook : lookupE (applyEdges ⟨vs.length, .floatT, diagEntries 0 vs⟩
        (es ++ [(i, i, w)])).entries i i = some w := by
      rw [lookupE_applyEdges, hlast]
      rfl
  · unfold SpMat.presentB
    rw [hlook]
    rfl
  · unfold SpMat.val
    rw [hlook]
    rfl

/-- C10 witness: the theorem instantiated at a concrete 2-vertex file
whose one edge line `0 0 7` overwrites the first vertex weight. -/
theorem c10_witness :
    ((0 : Nat) < 2)
    ∧ (∃ M, loadflag ([none, some 0] :: ([(1 : ℚ), 2].map some) :: [none, some 1] ::
          (([] ++ [((0 : Nat), (0 : Nat), (7 : ℚ))]).map renderTriple)) = .ok M
        ∧ M.presentB 0 0 = true ∧ M.val 0 0 = 7 ∧ M.n = 2) := by
  obtain ⟨M, h1, h2, h3, h4⟩ :=
    c10_diagonal_edge_line_overwrites [none, some 0] [none, some 1] [1, 2] [] 0 7
      (by norm_num) (by decide)
  exact ⟨by norm_num, M, h1, h2, h3, h4⟩

end Pyflagser
